import Mathlib

/-!
Verification of the credential-balancing reverse proxy (`github-api-proxy`).

The Go sources are shallowly embedded below:
* `GoStr.replaceAll` models `strings.ReplaceAll`,
* `GoStr.cut` models `strings.Cut`,
* `headerGet` / `headerSet` model `net/http.Header.Get` / `Header.Set`
  (headers are an association list keyed by canonical header names),
* `modifyResponse` models the `ReverseProxy.ModifyResponse` closure in `main.go`,
* `LoggingTransport.roundTrip` models `(*LoggingTransport).RoundTrip` in `log.go`,
* `configurePatTransport` models the PAT-credential construction,
* `SHA256.sum` / `base64StdEncode` model `crypto/sha256` and
  `encoding/base64.StdEncoding` as used by the PAT identity hashing,
* `muxServe` models the `http.ServeMux` routing plus `http.StripPrefix` and
  the `ReverseProxy` target-path join (`singleJoiningSlash`),
* `effectiveRPS` models the request-rate computation in `main.go`,
* `serverShutdown` / `mainShutdown` model the shutdown path of `main`.

Strings are handled through their `List Char` model; `[]byte` conversion is
modelled by UTF-8 encoding of each character.
-/

namespace GoStr

/-- One step of the `strings.Replace` scan for a non-empty pattern: at each
position, if `pat` matches, emit `rep` and skip over the match, otherwise keep
the character. `fuel` is an upper bound on the number of scan steps; callers
pass the length of `s`, which always suffices because every step consumes at
least one character. -/
def replaceFuel (pat rep : List Char) : Nat → List Char → List Char
  | 0, s => s
  | _ + 1, [] => []
  | fuel + 1, c :: rest =>
    if pat.isPrefixOf (c :: rest) then
      rep ++ replaceFuel pat rep fuel (rest.drop (pat.length - 1))
    else
      c :: replaceFuel pat rep fuel rest

/-- Behaviour of `strings.ReplaceAll` for an empty pattern: the replacement is
inserted before every character and once at the end. -/
def replaceEmpty (rep : List Char) : List Char → List Char
  | [] => rep
  | c :: rest => rep ++ c :: replaceEmpty rep rest

/-- Model of Go `strings.ReplaceAll s pat rep`: replaces every non-overlapping
occurrence of `pat` in `s` by `rep`, scanning left to right. -/
def replaceAll (s pat rep : List Char) : List Char :=
  match pat with
  | [] => replaceEmpty rep s
  | _ :: _ => replaceFuel pat rep s.length s

/-- Substring test used to reason about `strings.ReplaceAll`: `pat` occurs
somewhere in `s` (as Go `strings.Contains`). -/
def containsSub (pat : List Char) : List Char → Bool
  | [] => pat.isPrefixOf []
  | c :: rest => pat.isPrefixOf (c :: rest) || containsSub pat rest

/-- Model of Go `strings.Cut s sep`: splits around the first instance of `sep`,
returning `(before, after, found)`. -/
def cut (sep : List Char) : List Char → List Char × List Char × Bool
  | [] => if sep.isPrefixOf [] then ([], [], true) else ([], [], false)
  | c :: rest =>
    if sep.isPrefixOf (c :: rest) then
      ([], rest.drop (sep.length - 1), true)
    else
      match cut sep rest with
      | (pre, post, true) => (c :: pre, post, true)
      | (_, _, false) => (c :: rest, [], false)

end GoStr

/-- String-level wrapper for `strings.ReplaceAll`. -/
def strReplaceAll (s pat rep : String) : String :=
  String.mk (GoStr.replaceAll s.data pat.data rep.data)

/-- String-level wrapper for `strings.Contains`. -/
def strContainsSub (s pat : String) : Bool :=
  GoStr.containsSub pat.data s.data

/-- String-level wrapper for `strings.Cut`. -/
def strCut (s sep : String) : String × String × Bool :=
  match GoStr.cut sep.data s.data with
  | (pre, post, ok) => (String.mk pre, String.mk post, ok)

/-- HTTP headers, modelled as an association list of (canonical name, value)
pairs; `net/http` stores one entry per canonical key for the code paths used
here (`Get`/`Set`). -/
abbrev Header := List (String × String)

/-- Model of `http.Header.Get`: the value of the first entry for `key`, or the
empty string when the header is absent. -/
def headerGet (h : Header) (key : String) : String :=
  match h with
  | [] => ""
  | (k, v) :: rest => if k = key then v else headerGet rest key

/-- Removal of every entry for `key`; helper for the map semantics of
`http.Header.Set` (a header map has at most one entry per canonical key). -/
def headerDel (h : Header) (key : String) : Header :=
  match h with
  | [] => []
  | (k, v) :: rest =>
    if k = key then headerDel rest key else (k, v) :: headerDel rest key

/-- Model of `http.Header.Set`: replaces the entries for `key` by the single
`value`, appending a new entry when the key is absent. -/
def headerSet (h : Header) (key value : String) : Header :=
  match h with
  | [] => [(key, value)]
  | (k, v) :: rest =>
    if k = key then (key, value) :: headerDel rest key
    else (k, v) :: headerSet rest key value

/-- An upstream HTTP response as seen by `ModifyResponse`: status, headers and
body of the response, together with the headers of the outbound request it
answers (`resp.Request.Header`), which carry the `X-Forwarded-*` values set by
`ProxyRequest.SetXForwarded`. -/
structure HttpResponse where
  statusCode : Nat
  header : Header
  body : String
  reqHeader : Header
  deriving DecidableEq, Repr

/-- Client-visible origin string built by `ModifyResponse`:
`resp.Request.Header.Get("X-Forwarded-Proto") + "://" +
resp.Request.Header.Get("X-Forwarded-Host") + "/"`. -/
def forwardedOrigin (resp : HttpResponse) : String :=
  headerGet resp.reqHeader "X-Forwarded-Proto" ++ "://" ++
    headerGet resp.reqHeader "X-Forwarded-Host" ++ "/"

/-- Model of the `ReverseProxy.ModifyResponse` closure in `main.go`: when a
`Link` header is present (non-empty under `Get`), every occurrence of
`proxyURL.String()` in it is replaced by the forwarded origin; otherwise the
response is left untouched. `proxyURL` is the configured upstream base URL
(`url.Parse(*apiURL).String()`). -/
def modifyResponse (proxyURL : String) (resp : HttpResponse) : HttpResponse :=
  let link := headerGet resp.header "Link"
  if link ≠ "" then
    { resp with
      header := headerSet resp.header "Link"
        (strReplaceAll link proxyURL (forwardedOrigin resp)) }
  else
    resp

/-- Errors returned by Go round trips, identified by their message. -/
inductive GoError where
  | transportError (msg : String)
  | contextCanceled
  deriving DecidableEq, Repr

/-- The `(resp *http.Response, err error)` pair returned by a Go
`RoundTripper`; either component may be nil. -/
structure RoundTripResult where
  resp : Option HttpResponse
  err : Option GoError
  deriving DecidableEq, Repr

namespace LoggingTransport

/-- Model of `(*LoggingTransport).RoundTrip` in `log.go`, as a function of the
request path and of the result of `t.Base.RoundTrip`. The method first reads
`resp.StatusCode` to record the latency metric, before any nil check on
`resp`; a nil base response therefore panics, modelled as `none`. When the
path is `/rate_limit` it returns `resp, err`; on every other path it logs and
then executes `return resp, nil`, discarding `err`. -/
def roundTrip (reqPath : String) (base : RoundTripResult) : Option RoundTripResult :=
  match base.resp with
  | none => none
  | some _ =>
    if reqPath = "/rate_limit" then some base
    else some { resp := base.resp, err := none }

end LoggingTransport

namespace GoStr

/-- Auxiliary fuel irrelevance: any fuel bound at least the length of the
scanned list yields the same result. -/
theorem replaceFuel_congr (pat rep : List Char) :
    ∀ (f1 f2 : Nat) (s : List Char), s.length ≤ f1 → s.length ≤ f2 →
      replaceFuel pat rep f1 s = replaceFuel pat rep f2 s := by
  intro f1
  induction f1 with
  | zero =>
    intro f2 s h1 _
    have hs : s = [] := List.length_eq_zero.mp (Nat.le_zero.mp h1)
    subst hs
    cases f2 <;> rfl
  | succ n ih =>
    intro f2 s h1 h2
    cases s with
    | nil => cases f2 <;> rfl
    | cons c rest =>
      cases f2 with
      | zero =>
        exact absurd h2 (by simp)
      | succ m =>
        have hr1 : rest.length ≤ n := Nat.succ_le_succ_iff.mp (by simpa using h1)
        have hr2 : rest.length ≤ m := Nat.succ_le_succ_iff.mp (by simpa using h2)
        have hdrop : (rest.drop (pat.length - 1)).length ≤ rest.length := by
          rw [List.length_drop]
          exact Nat.sub_le _ _
        simp only [replaceFuel]
        by_cases hp : pat.isPrefixOf (c :: rest) = true
        · rw [if_pos hp, if_pos hp]
          congr 1
          exact ih m _ (le_trans hdrop hr1) (le_trans hdrop hr2)
        · rw [if_neg hp, if_neg hp]
          congr 1
          exact ih m rest hr1 hr2

/-- When the pattern occurs nowhere in the scanned list, the scan is the
identity. -/
theorem replaceFuel_of_not_contains (pat rep : List Char) :
    ∀ (f : Nat) (s : List Char), containsSub pat s = false →
      replaceFuel pat rep f s = s := by
  intro f
  induction f with
  | zero =>
    intro s _
    rfl
  | succ n ih =>
    intro s hc
    cases s with
    | nil => rfl
    | cons c rest =>
      simp only [containsSub, Bool.or_eq_false_iff] at hc
      obtain ⟨hp, hrest⟩ := hc
      simp only [replaceFuel]
      rw [if_neg (by simp [hp])]
      rw [ih rest hrest]

/-- The empty pattern occurs in every list. -/
theorem containsSub_nil (s : List Char) : containsSub [] s = true := by
  cases s <;> rfl

/-- Go `strings.ReplaceAll` is the identity on strings that do not contain
the pattern. -/
theorem replaceAll_of_not_contains (s pat rep : List Char)
    (hc : containsSub pat s = false) : replaceAll s pat rep = s := by
  cases pat with
  | nil => exact absurd hc (by simp [containsSub_nil])
  | cons p ps => exact replaceFuel_of_not_contains _ _ _ _ hc

/-- Go `strings.ReplaceAll` on a string beginning with the (non-empty)
pattern replaces that prefix and continues on the remainder. -/
theorem replaceAll_append (pat t rep : List Char) (hp : pat ≠ []) :
    replaceAll (pat ++ t) pat rep = rep ++ replaceAll t pat rep := by
  cases pat with
  | nil => exact absurd rfl hp
  | cons p ps =>
    show replaceFuel (p :: ps) rep ((p :: ps) ++ t).length ((p :: ps) ++ t) =
      rep ++ replaceFuel (p :: ps) rep t.length t
    have hpre : (p :: ps).isPrefixOf (p :: (ps ++ t)) = true := by
      rw [List.isPrefixOf_iff_prefix]
      exact ⟨t, by simp⟩
    simp only [List.cons_append, List.length_cons, replaceFuel, List.append_eq,
      Nat.add_sub_cancel]
    rw [if_pos hpre, List.drop_left]
    congr 1
    exact replaceFuel_congr _ _ _ _ _ (by simp) (le_refl _)

end GoStr

/-- String-level form of `GoStr.replaceAll_of_not_contains`. -/
theorem strReplaceAll_of_not_contains (s pat rep : String)
    (hc : strContainsSub s pat = false) : strReplaceAll s pat rep = s := by
  cases s with
  | mk d =>
    show String.mk (GoStr.replaceAll d pat.data rep.data) = String.mk d
    rw [GoStr.replaceAll_of_not_contains d pat.data rep.data hc]

/-- String-level form of `GoStr.replaceAll_append`. -/
theorem strReplaceAll_append (base t rep : String) (hb : base ≠ "") :
    strReplaceAll (base ++ t) base rep = rep ++ strReplaceAll t base rep := by
  cases base with
  | mk bd =>
    cases t with
    | mk td =>
      cases rep with
      | mk rd =>
        have hbd : bd ≠ [] := fun h => hb (congrArg String.mk h)
        show String.mk (GoStr.replaceAll (bd ++ td) bd rd) = _
        rw [GoStr.replaceAll_append bd td rd hbd]
        rfl

/-- Lookup after deleting a different key is unchanged. -/
theorem headerGet_headerDel_ne (h : Header) (key k : String) (hk : k ≠ key) :
    headerGet (headerDel h key) k = headerGet h k := by
  induction h with
  | nil => rfl
  | cons p rest ih =>
    obtain ⟨k', v'⟩ := p
    by_cases hkk : k' = key
    · subst hkk
      simp [headerDel, headerGet, Ne.symm hk, ih]
    · by_cases hkk' : k' = k
      · subst hkk'
        simp [headerDel, headerGet, hkk]
      · simp [headerDel, headerGet, hkk, hkk', ih]

/-- Lookup of the key just set yields the new value. -/
theorem headerGet_headerSet_self (h : Header) (key value : String) :
    headerGet (headerSet h key value) key = value := by
  induction h with
  | nil => simp [headerSet, headerGet]
  | cons p rest ih =>
    obtain ⟨k', v'⟩ := p
    by_cases hkk : k' = key
    · simp [headerSet, headerGet, hkk]
    · simp [headerSet, headerGet, hkk, ih]

/-- Lookup of a different key is unchanged by a set. -/
theorem headerGet_headerSet_ne (h : Header) (key value k : String) (hk : k ≠ key) :
    headerGet (headerSet h key value) k = headerGet h k := by
  induction h with
  | nil =>
    simp [headerSet, headerGet, Ne.symm hk]
  | cons p rest ih =>
    obtain ⟨k', v'⟩ := p
    by_cases hkk : k' = key
    · subst hkk
      simp [headerSet, headerGet, Ne.symm hk, headerGet_headerDel_ne rest k' k hk]
    · by_cases hkk' : k' = k
      · subst hkk'
        simp [headerSet, headerGet, hkk]
      · simp [headerSet, headerGet, hkk, hkk', ih]

/-- Deleting a key twice equals deleting it once. -/
theorem headerDel_headerDel (h : Header) (key : String) :
    headerDel (headerDel h key) key = headerDel h key := by
  induction h with
  | nil => rfl
  | cons p rest ih =>
    obtain ⟨k', v'⟩ := p
    by_cases hkk : k' = key
    · simp [headerDel, hkk, ih]
    · simp [headerDel, hkk, ih]

/-- Setting the same key to the same value twice equals setting it once. -/
theorem headerSet_headerSet (h : Header) (key value : String) :
    headerSet (headerSet h key value) key value = headerSet h key value := by
  induction h with
  | nil => simp [headerSet, headerDel]
  | cons p rest ih =>
    obtain ⟨k', v'⟩ := p
    by_cases hkk : k' = key
    · subst hkk
      simp [headerSet, headerDel, headerDel_headerDel]
    · simp [headerSet, hkk, ih]

/-- C1: the spec claims that when the underlying transport fails with error
`e`, the send operation returns that same error `e` unmodified. The code
contradicts this at the failing input: for a request to `/repos/o/r` whose
base round trip fails, either the base response is nil and the method panics
while reading `resp.StatusCode` (left conjunct), or the base response is
non-nil and the method returns a nil error, discarding `e` (right conjunct). -/
theorem loggingTransport_error_not_returned :
    LoggingTransport.roundTrip "/repos/o/r"
      { resp := none, err := some (GoError.transportError "connection refused") } = none ∧
    LoggingTransport.roundTrip "/repos/o/r"
      { resp := some { statusCode := 502, header := [], body := "", reqHeader := [] },
        err := some (GoError.transportError "connection refused") } =
      some { resp := some { statusCode := 502, header := [], body := "", reqHeader := [] },
             err := none } := by
  constructor <;> rfl

/-- C9: `LoggingTransport.RoundTrip` reads `resp.StatusCode` before any nil
check, so whenever the base transport returns a nil response the method panics
instead of returning (left conjunct), and the operation returns normally
exactly when the base response is non-nil, making the later `if resp != nil`
branch unreachable with a nil response (right conjunct). -/
theorem loggingTransport_panics_on_nil_response :
    (∀ (path : String) (e : Option GoError),
        LoggingTransport.roundTrip path { resp := none, err := e } = none) ∧
    (∀ (path : String) (base : RoundTripResult),
        (LoggingTransport.roundTrip path base).isSome = base.resp.isSome) := by
  constructor
  · intro path e
    rfl
  · intro path base
    cases h : base.resp with
    | none => simp [LoggingTransport.roundTrip, h]
    | some r =>
      by_cases hp : path = "/rate_limit" <;>
        simp [LoggingTransport.roundTrip, h, hp]

/-- Response used in the end-to-end rewrite scenario and as concrete input for
the frame and exactness witnesses: carries a pagination `Link`, an unrelated
header, and the forwarded origin of the client. -/
def respLinked : HttpResponse :=
  { statusCode := 200,
    header := [("Link", "<https://u/r?page=2>; rel=\"next\""), ("X-Foo", "bar")],
    body := "payload",
    reqHeader := [("X-Forwarded-Proto", "https"), ("X-Forwarded-Host", "p")] }

/-- Response without a `Link` header, used as concrete input for the no-op
witnesses. -/
def respNoLink : HttpResponse :=
  { statusCode := 304,
    header := [("X-Foo", "bar")],
    body := "",
    reqHeader := [("X-Forwarded-Proto", "https"), ("X-Forwarded-Host", "p")] }

/-- C2: a response whose `Link` header is the pagination URL
`https://upstream.example/resource?page=2`, proxied with upstream base
`https://upstream.example/` and client-visible origin `https://proxy.example`
(as carried in `X-Forwarded-Proto` / `X-Forwarded-Host`), is rewritten to
exactly `https://proxy.example/resource?page=2`. -/
theorem pagination_link_rewrite_scenario :
    headerGet
      (modifyResponse "https://upstream.example/"
        { statusCode := 200,
          header := [("Link", "https://upstream.example/resource?page=2")],
          body := "",
          reqHeader := [("X-Forwarded-Proto", "https"),
                        ("X-Forwarded-Host", "proxy.example")] }).header
      "Link" =
    "https://proxy.example/resource?page=2" := by decide

/-- Response exhibiting the non-idempotence of the `Link` rewrite: with
upstream base `u/`, forwarded proto `https` and forwarded host `u`, the
replacement string `https://u/` itself contains the upstream base `u/`. -/
def respReplapse : HttpResponse :=
  { statusCode := 200,
    header := [("Link", "u/a")],
    body := "",
    reqHeader := [("X-Forwarded-Proto", "https"), ("X-Forwarded-Host", "u")] }

/-- C3 counterexample: the rewrite is not idempotent. With upstream base
`u/`, forwarded origin `https://u/` and `Link` value `u/a`, one application
yields `https://u/a` but a second application yields `https://https://u/a`,
because the replacement string reintroduces an occurrence of the upstream
base. -/
theorem pagination_link_rewrite_not_idempotent :
    headerGet (modifyResponse "u/" respReplapse).header "Link" = "https://u/a" ∧
    headerGet (modifyResponse "u/" (modifyResponse "u/" respReplapse)).header "Link" =
      "https://https://u/a" ∧
    modifyResponse "u/" (modifyResponse "u/" respReplapse) ≠
      modifyResponse "u/" respReplapse := by
  refine ⟨by decide, by decide, by decide⟩


/-- A response whose `Link` header is absent (or empty under `Get`) passes
through `ModifyResponse` unchanged. -/
theorem modifyResponse_link_empty (base : String) (resp : HttpResponse)
    (hl : headerGet resp.header "Link" = "") : modifyResponse base resp = resp := by
  unfold modifyResponse
  simp [hl]

/-- Shape of `ModifyResponse` on a response with a non-empty `Link` header. -/
theorem modifyResponse_link_ne (base : String) (resp : HttpResponse)
    (hl : headerGet resp.header "Link" ≠ "") :
    modifyResponse base resp =
      { resp with
        header := headerSet resp.header "Link"
          (strReplaceAll (headerGet resp.header "Link") base (forwardedOrigin resp)) } := by
  unfold modifyResponse
  simp [hl]

/-- C3 (amended): the `Link` rewrite is exact — a response with no `Link`
header is untouched; a `Link` value containing no occurrence of the upstream
base is returned unchanged; a value beginning with the (non-empty) upstream
base has exactly that prefix replaced, with the remainder (path suffix and
query parameters) rewritten independently and otherwise preserved; and
applying the rewrite twice equals applying it once provided the once-rewritten
`Link` value contains no remaining occurrence of the upstream base (the
condition violated by the counterexample). -/
theorem pagination_link_rewrite_exact (base rep link t : String) (resp : HttpResponse) :
    (headerGet resp.header "Link" = "" → modifyResponse base resp = resp) ∧
    (strContainsSub link base = false → strReplaceAll link base rep = link) ∧
    (base ≠ "" → strReplaceAll (base ++ t) base rep = rep ++ strReplaceAll t base rep) ∧
    (strContainsSub
        (strReplaceAll (headerGet resp.header "Link") base (forwardedOrigin resp))
        base = false →
      modifyResponse base (modifyResponse base resp) = modifyResponse base resp) := by
  refine ⟨?_, ?_, ?_, ?_⟩
  · exact modifyResponse_link_empty base resp
  · intro hc
    exact strReplaceAll_of_not_contains link base rep hc
  · intro hb
    exact strReplaceAll_append base t rep hb
  · intro hc
    by_cases hlink : headerGet resp.header "Link" = ""
    · rw [modifyResponse_link_empty base resp hlink,
        modifyResponse_link_empty base resp hlink]
    · have h1 := modifyResponse_link_ne base resp hlink
      have h2 : headerGet (modifyResponse base resp).header "Link" =
          strReplaceAll (headerGet resp.header "Link") base (forwardedOrigin resp) := by
        rw [h1]
        exact headerGet_headerSet_self resp.header "Link" _
      have hfwd : forwardedOrigin (modifyResponse base resp) = forwardedOrigin resp := by
        rw [h1]
        simp [forwardedOrigin]
      by_cases hv : strReplaceAll (headerGet resp.header "Link") base (forwardedOrigin resp) = ""
      · exact modifyResponse_link_empty base _ (h2.trans hv)
      · have h3 := modifyResponse_link_ne base (modifyResponse base resp) (by rw [h2]; exact hv)
        rw [h3, h2, hfwd, strReplaceAll_of_not_contains _ _ _ hc, h1]
        simp [headerSet_headerSet]

/-- Witness for the amended C3 theorem: each conjunct applied at a concrete
input discharging its hypothesis. -/
theorem pagination_link_rewrite_exact_witness :
    modifyResponse "https://u/" respNoLink = respNoLink ∧
    strReplaceAll "plain text" "https://u/" "https://p/" = "plain text" ∧
    strReplaceAll ("https://u/" ++ "r?page=2") "https://u/" "https://p/" =
      "https://p/" ++ strReplaceAll "r?page=2" "https://u/" "https://p/" ∧
    modifyResponse "https://u/" (modifyResponse "https://u/" respLinked) =
      modifyResponse "https://u/" respLinked :=
  ⟨(pagination_link_rewrite_exact "https://u/" "https://p/" "plain text" "r?page=2"
      respNoLink).1 (by decide),
   (pagination_link_rewrite_exact "https://u/" "https://p/" "plain text" "r?page=2"
      respNoLink).2.1 (by decide),
   (pagination_link_rewrite_exact "https://u/" "https://p/" "plain text" "r?page=2"
      respNoLink).2.2.1 (by decide),
   (pagination_link_rewrite_exact "https://u/" "https://p/" "plain text" "r?page=2"
      respLinked).2.2.2 (by decide)⟩

/-- C10: the response-modification stage mutates at most the `Link` header:
the status code, the body, and every header other than `Link` are unchanged,
and a response whose `Link` header is absent is returned entirely unchanged. -/
theorem modifyResponse_frame (base : String) (resp : HttpResponse) :
    (modifyResponse base resp).statusCode = resp.statusCode ∧
    (modifyResponse base resp).body = resp.body ∧
    (∀ k : String, k ≠ "Link" →
      headerGet (modifyResponse base resp).header k = headerGet resp.header k) ∧
    (headerGet resp.header "Link" = "" → modifyResponse base resp = resp) := by
  by_cases hlink : headerGet resp.header "Link" = ""
  · rw [modifyResponse_link_empty base resp hlink]
    exact ⟨rfl, rfl, fun k _ => rfl, fun _ => rfl⟩
  · rw [modifyResponse_link_ne base resp hlink]
    refine ⟨rfl, rfl, ?_, fun hl => absurd hl hlink⟩
    intro k hk
    exact headerGet_headerSet_ne resp.header "Link" _ k hk

/-- Witness for the frame theorem: an unrelated header survives the rewrite of
a linked response, and a link-free response passes through identically. -/
theorem modifyResponse_frame_witness :
    headerGet (modifyResponse "https://u/" respLinked).header "X-Foo" =
      headerGet respLinked.header "X-Foo" ∧
    modifyResponse "https://u/" respNoLink = respNoLink :=
  ⟨(modifyResponse_frame "https://u/" respLinked).2.2.1 "X-Foo" (by decide),
   (modifyResponse_frame "https://u/" respNoLink).2.2.2 (by decide)⟩

namespace SHA256

/-- Truncation to a 32-bit word, as Go `uint32` arithmetic. -/
def w32 (x : Nat) : Nat := x % 4294967296

/-- 32-bit rotate right. -/
def rotr (x n : Nat) : Nat := w32 ((x >>> n) ||| (x <<< (32 - n)))

/-- Big sigma-0 compression function of FIPS 180-4. -/
def bigSigma0 (x : Nat) : Nat := (rotr x 2) ^^^ (rotr x 13) ^^^ (rotr x 22)

/-- Big sigma-1 compression function of FIPS 180-4. -/
def bigSigma1 (x : Nat) : Nat := (rotr x 6) ^^^ (rotr x 11) ^^^ (rotr x 25)

/-- Small sigma-0 message-schedule function of FIPS 180-4. -/
def smallSigma0 (x : Nat) : Nat := (rotr x 7) ^^^ (rotr x 18) ^^^ (x >>> 3)

/-- Small sigma-1 message-schedule function of FIPS 180-4. -/
def smallSigma1 (x : Nat) : Nat := (rotr x 17) ^^^ (rotr x 19) ^^^ (x >>> 10)

/-- Choice function of FIPS 180-4 (`^x` is 32-bit complement). -/
def ch (x y z : Nat) : Nat := (x &&& y) ^^^ ((x ^^^ 4294967295) &&& z)

/-- Majority function of FIPS 180-4. -/
def maj (x y z : Nat) : Nat := (x &&& y) ^^^ (x &&& z) ^^^ (y &&& z)

/-- Round constants of SHA-256 (fractional cube roots of the first 64
primes), written in decimal. -/
def K : List Nat :=
  [1116352408, 1899447441, 3049323471, 3921009573, 961987163,
   1508970993, 2453635748, 2870763221, 3624381080, 310598401,
   607225278, 1426881987, 1925078388, 2162078206, 2614888103,
   3248222580, 3835390401, 4022224774, 264347078, 604807628,
   770255983, 1249150122, 1555081692, 1996064986, 2554220882,
   2821834349, 2952996808, 3210313671, 3336571891, 3584528711,
   113926993, 338241895, 666307205, 773529912, 1294757372,
   1396182291, 1695183700, 1986661051, 2177026350, 2456956037,
   2730485921, 2820302411, 3259730800, 3345764771, 3516065817,
   3600352804, 4094571909, 275423344, 430227734, 506948616,
   659060556, 883997877, 958139571, 1322822218, 1537002063,
   1747873779, 1955562222, 2024104815, 2227730452, 2361852424,
   2428436474, 2756734187, 3204031479, 3329325298]

/-- Initial hash state of SHA-256 (fractional square roots of the first 8
primes), written in decimal. -/
def H0 : List Nat :=
  [1779033703, 3144134277, 1013904242, 2773480762,
   1359893119, 2600822924, 528734635, 1541459225]

/-- Big-endian 8-byte encoding of the bit length. -/
def be64 (n : Nat) : List Nat :=
  [(n >>> 56) &&& 255, (n >>> 48) &&& 255, (n >>> 40) &&& 255, (n >>> 32) &&& 255,
   (n >>> 24) &&& 255, (n >>> 16) &&& 255, (n >>> 8) &&& 255, n &&& 255]

/-- Merkle-Damgard padding: a 0x80 byte, zeros to 56 mod 64, then the
big-endian bit length. -/
def padding (msg : List Nat) : List Nat :=
  msg ++ 0x80 :: List.replicate ((64 + 55 - msg.length % 64) % 64) 0 ++ be64 (8 * msg.length)

/-- Big-endian 32-bit words of a byte list. -/
def toWords : List Nat → List Nat
  | a :: b :: c :: d :: rest => ((((((a <<< 8) ||| b) <<< 8) ||| c) <<< 8) ||| d) :: toWords rest
  | _ => []

/-- One message-schedule extension step, appending word `w[i]` computed from
`w[i-16]`, `w[i-15]`, `w[i-7]` and `w[i-2]`. -/
def extendStep (ws : List Nat) : List Nat :=
  ws ++ [w32 (ws.getD (ws.length - 16) 0 + smallSigma0 (ws.getD (ws.length - 15) 0) +
              ws.getD (ws.length - 7) 0 + smallSigma1 (ws.getD (ws.length - 2) 0))]

/-- Iterated message-schedule extension (48 steps extend 16 words to 64). -/
def extendRounds : Nat → List Nat → List Nat
  | 0, ws => ws
  | n + 1, ws => extendRounds n (extendStep ws)

/-- One compression round on the 8-word working state. -/
def round (st : List Nat) (k w : Nat) : List Nat :=
  match st with
  | [a, b, c, d, e, f, g, h] =>
    [w32 (w32 (h + bigSigma1 e + ch e f g + k + w) + w32 (bigSigma0 a + maj a b c)),
     a, b, c, w32 (d + w32 (h + bigSigma1 e + ch e f g + k + w)), e, f, g]
  | other => other

/-- Compression of one 64-byte block into the hash state. -/
def compress (h : List Nat) (block : List Nat) : List Nat :=
  (h.zip ((K.zip (extendRounds 48 (toWords block))).foldl
      (fun st p => round st p.1 p.2) h)).map (fun p => w32 (p.1 + p.2))

/-- Folding of the padded message 64 bytes at a time; `fuel` bounds the number
of steps (the padded length suffices). -/
def foldBlocks : Nat → List Nat → List Nat → List Nat
  | 0, h, _ => h
  | _ + 1, h, [] => h
  | fuel + 1, h, bs => foldBlocks fuel (compress h (bs.take 64)) (bs.drop 64)

/-- Big-endian bytes of one hash word. -/
def wordBytes (w : Nat) : List Nat :=
  [(w >>> 24) &&& 255, (w >>> 16) &&& 255, (w >>> 8) &&& 255, w &&& 255]

/-- Model of Go `sha256.Sum256`: the 32-byte SHA-256 digest of a byte list. -/
def sum (msg : List Nat) : List Nat :=
  ((foldBlocks (padding msg).length H0 (padding msg)).map wordBytes).flatten

end SHA256

/-- Alphabet of `encoding/base64.StdEncoding`. -/
def base64Chars : List Char :=
  "ABCDEFGHIJKLMNOPQRSTUVWXYZabcdefghijklmnopqrstuvwxyz0123456789+/".data

/-- Character of a 6-bit group. -/
def b64c (n : Nat) : Char := base64Chars.getD n '='

/-- Base64 encoding of a byte list, three bytes at a time with `=` padding. -/
def base64Groups : List Nat → List Char
  | [] => []
  | [a] => [b64c (a >>> 2), b64c ((a &&& 3) <<< 4), '=', '=']
  | [a, b] => [b64c (a >>> 2), b64c (((a &&& 3) <<< 4) ||| (b >>> 4)), b64c ((b &&& 15) <<< 2), '=']
  | a :: b :: c :: rest =>
    b64c (a >>> 2) :: b64c (((a &&& 3) <<< 4) ||| (b >>> 4)) ::
      b64c (((b &&& 15) <<< 2) ||| (c >>> 6)) :: b64c (c &&& 63) :: base64Groups rest

/-- Model of `base64.StdEncoding.EncodeToString`. -/
def base64StdEncode (bs : List Nat) : String := String.mk (base64Groups bs)

/-- UTF-8 bytes of one character, modelling Go's `[]byte(string)` encoding. -/
def utf8Char (c : Char) : List Nat :=
  if c.toNat < 128 then [c.toNat]
  else if c.toNat < 2048 then [192 ||| (c.toNat >>> 6), 128 ||| (c.toNat &&& 63)]
  else if c.toNat < 65536 then
    [224 ||| (c.toNat >>> 12), 128 ||| ((c.toNat >>> 6) &&& 63), 128 ||| (c.toNat &&& 63)]
  else
    [240 ||| (c.toNat >>> 18), 128 ||| ((c.toNat >>> 12) &&& 63),
     128 ||| ((c.toNat >>> 6) &&& 63), 128 ||| (c.toNat &&& 63)]

/-- UTF-8 bytes of a string, modelling Go's `[]byte(token)`. -/
def utf8Bytes (s : String) : List Nat := (s.data.map utf8Char).flatten

/-- A personal-access-token credential as configured by
`configurePatTransport`: the metrics label (`tokenId`) and the token attached
as authentication material (`token`, via `oauth2.StaticTokenSource`). -/
structure PatCredential where
  tokenId : String
  token : String
  deriving DecidableEq, Repr

/-- Model of `configurePatTransport` in the main program: `strings.Cut` the
specification around the first colon; when a colon is found the part before it
is the metrics identifier and the part after it the token; otherwise the whole
string is the token and the identifier is the base64 of its SHA-256 digest. -/
def configurePatTransport (token : String) : PatCredential :=
  match strCut token ":" with
  | (tokenId, tok, true) => { tokenId := tokenId, token := tok }
  | (tokenId, _, false) =>
    { tokenId := base64StdEncode (SHA256.sum (utf8Bytes tokenId)), token := tokenId }

/-- Go `strings.Cut` on a string not containing the separator reports the
whole string with `found = false`. -/
theorem GoStr.cut_of_not_contains (sep s : List Char)
    (hc : GoStr.containsSub sep s = false) : GoStr.cut sep s = (s, [], false) := by
  induction s with
  | nil =>
    simp only [GoStr.containsSub] at hc
    simp [GoStr.cut, hc]
  | cons c rest ih =>
    simp only [GoStr.containsSub, Bool.or_eq_false_iff] at hc
    obtain ⟨hp, hrest⟩ := hc
    simp [GoStr.cut, hp, ih hrest]

/-- Go `strings.Cut` with a single-character separator splits at the first
occurrence of that character. -/
theorem GoStr.cut_single (c0 : Char) (pre post : List Char)
    (hc : GoStr.containsSub [c0] pre = false) :
    GoStr.cut [c0] (pre ++ c0 :: post) = (pre, post, true) := by
  induction pre with
  | nil => simp [GoStr.cut, List.isPrefixOf]
  | cons c cs ih =>
    simp only [GoStr.containsSub, Bool.or_eq_false_iff] at hc
    obtain ⟨hp, hrest⟩ := hc
    have hp' : [c0].isPrefixOf (c :: (cs ++ c0 :: post)) = false := by
      simpa [List.isPrefixOf] using hp
    simp [GoStr.cut, hp', ih hrest]

/-- String-level form of `GoStr.cut_of_not_contains`. -/
theorem strCut_of_not_contains (s sep : String) (hc : strContainsSub s sep = false) :
    strCut s sep = (s, "", false) := by
  cases s with
  | mk d =>
    show (match GoStr.cut sep.data d with
          | (pre, post, ok) => (String.mk pre, String.mk post, ok)) =
      (String.mk d, "", false)
    rw [GoStr.cut_of_not_contains sep.data d hc]

/-- String-level colon split: cutting `id ++ ":" ++ tok` at `":"` returns
`(id, tok, true)` when `id` itself contains no colon. -/
theorem strCut_append_colon (id tok : String) (hc : strContainsSub id ":" = false) :
    strCut (id ++ ":" ++ tok) ":" = (id, tok, true) := by
  cases id with
  | mk d =>
    cases tok with
    | mk e =>
      have hdata : (String.mk d ++ ":" ++ String.mk e).data = d ++ ':' :: e := by
        show (d ++ (":").data) ++ e = d ++ ':' :: e
        simp
      show (match GoStr.cut (":").data (String.mk d ++ ":" ++ String.mk e).data with
            | (pre, post, ok) => (String.mk pre, String.mk post, ok)) =
        (String.mk d, String.mk e, true)
      rw [hdata]
      rw [show (":" : String).data = [':'] from rfl]
      rw [GoStr.cut_single ':' d e hc]

/-- C4: a static-token credential given without an explicit identity (no colon
in the specification) gets the base64-encoded SHA-256 digest of the bare token
as its metrics identity, and the bare token itself as authentication
material. The identity is a pure function of the token, hence identical
across restarts for the same token. -/
theorem pat_identity_is_token_hash (token : String)
    (h : strContainsSub token ":" = false) :
    (configurePatTransport token).tokenId =
      base64StdEncode (SHA256.sum (utf8Bytes token)) ∧
    (configurePatTransport token).token = token := by
  unfold configurePatTransport
  rw [strCut_of_not_contains token ":" h]
  exact ⟨rfl, rfl⟩

/-- Witness for C4 at the end-to-end scenario token `ghp_abc`; the digest
equals the independently computed base64 SHA-256 value. -/
theorem pat_identity_is_token_hash_witness :
    (configurePatTransport "ghp_abc").tokenId =
      "3H8SP+RNfkJ28HQisJKr+xZYEPg3h9Raib2uyWvwHEg=" ∧
    (configurePatTransport "ghp_abc").token = "ghp_abc" :=
  ⟨((pat_identity_is_token_hash "ghp_abc" (by decide)).1).trans (by decide),
   (pat_identity_is_token_hash "ghp_abc" (by decide)).2⟩

/-- C8 counterexample: the claim reads the specification format as
`token:identity`. For the input `tokA:idB` the code uses the part before the
colon (`tokA`) as the metrics identity and the part after it (`idB`) as the
token — the opposite of the claimed assignment. -/
theorem pat_spec_order_counterexample :
    (configurePatTransport "tokA:idB").tokenId = "tokA" ∧
    (configurePatTransport "tokA:idB").token = "idB" ∧
    ¬((configurePatTransport "tokA:idB").tokenId = "idB" ∧
      (configurePatTransport "tokA:idB").token = "tokA") := by
  refine ⟨by decide, by decide, by decide⟩

/-- C8 (amended): the explicit-identity form is `identifier:token` (the flag
help text's wording): the part before the first colon is the metrics
identifier and the part after it is the token attached as authentication
material; the identifier may not itself contain a colon. -/
theorem pat_spec_identifier_token (id tok : String)
    (hc : strContainsSub id ":" = false) :
    (configurePatTransport (id ++ ":" ++ tok)).tokenId = id ∧
    (configurePatTransport (id ++ ":" ++ tok)).token = tok := by
  unfold configurePatTransport
  rw [strCut_append_colon id tok hc]
  exact ⟨rfl, rfl⟩

/-- Witness for the amended C8 theorem at the repository's own test vector
`id123:token-value`. -/
theorem pat_spec_identifier_token_witness :
    (configurePatTransport ("id123" ++ ":" ++ "token-value")).tokenId = "id123" ∧
    (configurePatTransport ("id123" ++ ":" ++ "token-value")).token = "token-value" :=
  pat_spec_identifier_token "id123" "token-value" (by decide)

/-- Concatenation of strings concatenates their character data. -/
theorem strData_append (a b : String) : (a ++ b).data = a.data ++ b.data := rfl

/-- String concatenation is associative. -/
theorem strAppend_assoc (a b c : String) : (a ++ b) ++ c = a ++ (b ++ c) := by
  cases a
  cases b
  cases c
  show String.mk _ = String.mk _
  rw [List.append_assoc]

/-- Go `strings.HasPrefix` on the character model. -/
def strHasPfx (s pfx : String) : Bool := pfx.data.isPrefixOf s.data

/-- Go `strings.HasSuffix` on the character model. -/
def strHasSfx (s sfx : String) : Bool := sfx.data.reverse.isPrefixOf s.data.reverse

/-- The slice `s[n:]` of a Go string, on the character model. -/
def strDrop (s : String) (n : Nat) : String := String.mk (s.data.drop n)

/-- A string always carries its own left part as prefix. -/
theorem strHasPfx_append (p s : String) : strHasPfx (p ++ s) p = true := by
  show p.data.isPrefixOf (p ++ s).data = true
  rw [strData_append, List.isPrefixOf_iff_prefix]
  exact List.prefix_append _ _

/-- Dropping the length of the left part of a concatenation yields the right
part. -/
theorem strDrop_data_append (p s : String) : strDrop (p ++ s) p.data.length = s := by
  cases s with
  | mk e =>
    show String.mk ((p ++ String.mk e).data.drop p.data.length) = String.mk e
    rw [strData_append, List.drop_left]

/-- Specialisation of `strDrop_data_append` to the compatibility prefix. -/
theorem strDrop_apiV3 (rest : String) : strDrop ("/api/v3/" ++ rest) 8 = rest :=
  strDrop_data_append "/api/v3/" rest

/-- Model of `singleJoiningSlash` in `net/http/httputil`, used by
`ProxyRequest.SetURL` to join the configured target's base path with the
inbound request path. -/
def singleJoiningSlash (a b : String) : String :=
  if strHasSfx a "/" && strHasPfx b "/" then a ++ strDrop b 1
  else if !strHasSfx a "/" && !strHasPfx b "/" then a ++ "/" ++ b
  else a ++ b

/-- Handler outcome of the HTTP router: the metrics handler, or the reverse
proxy with the upstream path it will request. -/
inductive RouteTarget where
  | metrics
  | proxy (upstreamPath : String)
  deriving DecidableEq, Repr

/-- Model of the `http.ServeMux` wiring in the main program combined with the
proxy's target-path join: `/metrics` is served by the Prometheus handler;
paths under `/api/v3/` go through `http.StripPrefix("/api/v3/", proxy)`
(the prefix — 8 characters — is removed before the proxy runs); every other
path matches the root pattern and is proxied as-is. For proxied requests the
payload is the upstream path produced by `SetURL`, namely
`singleJoiningSlash targetBase path`. -/
def muxServe (targetBase path : String) : RouteTarget :=
  if path = "/metrics" then RouteTarget.metrics
  else if strHasPfx path "/api/v3/" then
    RouteTarget.proxy (singleJoiningSlash targetBase (strDrop path 8))
  else RouteTarget.proxy (singleJoiningSlash targetBase path)

/-- Prepending a leading slash to a slash-free path does not change the joined
upstream path. -/
theorem singleJoiningSlash_slash (a rest : String) (h : strHasPfx rest "/" = false) :
    singleJoiningSlash a ("/" ++ rest) = singleJoiningSlash a rest := by
  have hb : strHasPfx ("/" ++ rest) "/" = true := strHasPfx_append "/" rest
  have hdrop : strDrop ("/" ++ rest) 1 = rest := strDrop_data_append "/" rest
  unfold singleJoiningSlash
  by_cases ha : strHasSfx a "/" = true
  · simp [ha, hb, h, hdrop]
  · simp only [Bool.not_eq_true] at ha
    simp [ha, hb, h, strAppend_assoc]

/-- C7 counterexample: a request to `/api/v3/metrics` is proxied (with
upstream path `/metrics`), while the bare-root request for the stripped path,
`/metrics`, is served by the metrics handler and not proxied — so the two
route prefixes are not equivalent at this path. -/
theorem api_v3_metrics_not_equivalent :
    muxServe "/" "/api/v3/metrics" = RouteTarget.proxy "/metrics" ∧
    muxServe "/" "/metrics" = RouteTarget.metrics ∧
    RouteTarget.proxy "/metrics" ≠ RouteTarget.metrics := by
  refine ⟨by decide, by decide, by decide⟩

/-- C7 (amended): a request under the compatibility prefix `/api/v3/` is
proxied with the same upstream path as the bare-root request for the stripped
path, provided the stripped path does not collide with the metrics route and
does not re-enter the compatibility prefix; and the fixed path `/metrics` is
always served by the metrics handler, never proxied. -/
theorem api_v3_routes_like_root (base rest : String)
    (h1 : strHasPfx rest "/" = false)
    (h2 : ("/" ++ rest : String) ≠ "/metrics")
    (h3 : strHasPfx rest "api/v3/" = false) :
    muxServe base ("/api/v3/" ++ rest) = muxServe base ("/" ++ rest) ∧
    muxServe base "/metrics" = RouteTarget.metrics := by
  constructor
  · have hne1 : ("/api/v3/" ++ rest : String) ≠ "/metrics" := by
      intro heq
      have hd := congrArg String.data heq
      rw [strData_append,
        show ("/api/v3/" : String).data = ['/', 'a', 'p', 'i', '/', 'v', '3', '/'] from rfl,
        show ("/metrics" : String).data = ['/', 'm', 'e', 't', 'r', 'i', 'c', 's'] from rfl] at hd
      simp at hd
    have hpfx : strHasPfx ("/api/v3/" ++ rest) "/api/v3/" = true := strHasPfx_append _ _
    have hnpfx : strHasPfx ("/" ++ rest) "/api/v3/" = false := by
      show ("/api/v3/" : String).data.isPrefixOf ("/" ++ rest).data = false
      rw [strData_append,
        show ("/api/v3/" : String).data = '/' :: ("api/v3/" : String).data from rfl,
        show ("/" : String).data = ['/'] from rfl]
      simpa [List.isPrefixOf] using h3
    unfold muxServe
    rw [if_neg hne1, if_neg h2, if_pos hpfx, if_neg (by simp [hnpfx]), strDrop_apiV3,
      singleJoiningSlash_slash base rest h1]
  · unfold muxServe
    rw [if_pos rfl]

/-- Witness for the amended C7 theorem at the path `/api/v3/repos/octocat`. -/
theorem api_v3_routes_like_root_witness :
    muxServe "/" ("/api/v3/" ++ "repos/octocat") = muxServe "/" ("/" ++ "repos/octocat") ∧
    muxServe "/" "/metrics" = RouteTarget.metrics :=
  api_v3_routes_like_root "/" "repos/octocat" (by decide) (by decide) (by decide)

/-- Model of the request-rate computation in `main.go`: when credentials are
configured, the statement `*rps = *rps * (len(*authOAuth) + *rps*len(*authApp)
+ *rps*len(*authToken))` is executed; the resulting value, when positive, is
the admission rate of the single `ratelimit.New(*rps)` limiter installed by
`RPSTransport` around the shared transport. -/
def effectiveRPS (rps nOAuth nApp nToken : Nat) : Nat :=
  if 0 < nOAuth + nApp + nToken then rps * (nOAuth + rps * nApp + rps * nToken)
  else rps

/-- C5: the spec claims the global limiter admits exactly N times R requests
per second for N configured credentials and per-credential ceiling R. With
R = 2 and a single token credential (N = 1) the code computes
`2 * (0 + 2*0 + 2*1) = 4`, while N * R = 2. -/
theorem rps_rate_not_n_times_r :
    effectiveRPS 2 0 0 1 = 4 ∧ 2 * (0 + 0 + 1) = 2 ∧ (4 : Nat) ≠ 2 := by
  refine ⟨by decide, by decide, by decide⟩

/-- Outcome of process termination in `main` after the interrupt signal. -/
inductive ShutdownOutcome where
  | drained
  | fatalExit
  deriving DecidableEq, Repr

/-- Model of `(*http.Server).Shutdown(ctx)` (net/http): the listeners are
closed first, so no further connections are accepted in any case (first
component); then the function waits for active connections to finish only
while the context is live — when requests are in flight and the context is
already done it returns the context's error immediately instead of waiting
(second component). -/
def serverShutdown (inFlight : Nat) (ctxAlreadyDone : Bool) : Bool × Option GoError :=
  if inFlight = 0 then (true, none)
  else if ctxAlreadyDone then (true, some GoError.contextCanceled)
  else (true, none)

/-- Model of the tail of `main`: execution reaches `server.Shutdown(ctx)` only
after `<-ctx.Done()`, so the context handed to `Shutdown` is the
already-cancelled signal context; a non-nil `Shutdown` error is passed to
`log.Fatal`, which exits the process immediately. -/
def mainShutdown (inFlight : Nat) : ShutdownOutcome :=
  match (serverShutdown inFlight true).2 with
  | none => ShutdownOutcome.drained
  | some _ => ShutdownOutcome.fatalExit

/-- C6: the spec claims an in-flight request completes and its response is
returned during shutdown. Because `main` hands the already-cancelled signal
context to `server.Shutdown`, with one request in flight `Shutdown` returns
`context.Canceled` immediately and `main` exits through `log.Fatal`,
abandoning the request (first two conjuncts); the listener part of the claim
does hold — listeners are closed, and with no request in flight the shutdown
is clean (last two conjuncts). -/
theorem shutdown_abandons_in_flight_request :
    mainShutdown 1 = ShutdownOutcome.fatalExit ∧
    (serverShutdown 1 true).2 = some GoError.contextCanceled ∧
    (serverShutdown 1 true).1 = true ∧
    mainShutdown 0 = ShutdownOutcome.drained := by
  refine ⟨rfl, rfl, rfl, rfl⟩
